import Mathlib

/-!
Verification of the pymachine repository.

Shallow embedding, in Lean 4, of the three source files of the repository
(`construction.py`, `lexicon.py`, `definition_parser.py`), together with
theorems settling the frozen claims C1–C10 about them.

Machines are modelled by an arena (`Store`) of mutable nodes addressed by
natural-number references, so that the aliasing and in-place mutation that the
Python code relies on is represented faithfully.  External boundary types
(the `Machine`/`Control` graph primitive, the `FSA`/`Transition` automaton
primitive, the deep-case constant table, the legacy text decoder and the
grammar engine) are not part of the repository; where a claim needs them they
are modelled from the spec's boundary contract (§3/§6), and each such
definition carries a doc comment saying so.
-/

namespace PM

/-! ## Decimal rendering of naturals (Python's `str(i)` on state numbers)

`VerbConstruction.generate_control` names automaton states `str(i)`.  `str`
below is the decimal printer: repeated division by ten, most significant digit
first, exactly the numeral `str(i)` produces for a nonnegative `int`. -/

/-- The decimal digit character for a digit value `< 10`. -/
def digChar : Nat → Char
  | 0 => '0' | 1 => '1' | 2 => '2' | 3 => '3' | 4 => '4'
  | 5 => '5' | 6 => '6' | 7 => '7' | 8 => '8' | _ => '9'

/-- Digit-accumulating loop of the decimal printer.  The first argument is
fuel bounding the number of divisions by ten; `str` supplies `n` itself, which
always suffices since `n / 10 < n` for `n > 0`. -/
def strAux : Nat → Nat → List Char → List Char
  | 0, n, acc => digChar (n % 10) :: acc
  | f + 1, n, acc =>
      if n / 10 = 0 then digChar (n % 10) :: acc
      else strAux f (n / 10) (digChar (n % 10) :: acc)

/-- Python's `str(i)` for a natural number: its decimal numeral. -/
def str (n : Nat) : String := ⟨strAux n n []⟩

/-- Numeric value of a digit string; left inverse used to prove `str` injective. -/
def digitsVal (l : List Char) : Nat := l.foldl (fun a c => 10 * a + (c.toNat - 48)) 0

/-- Modelled from the spec: the polymorphic per-Machine control payload (§3) —
a part-of-speech control exposing a mutable POS string (`PosControl`), a
concept control (`ConceptControl`), the plugin marker
(`ElviraPluginControl`), or no control (a `Machine` built without one). -/
inductive Control where
  | posC (pos : String)
  | conceptC
  | elviraC
  | noneC
deriving DecidableEq

/-- Modelled from the spec: one `Machine` node (§3) — printname identity, one
control object and an ordered list of partitions, each an ordered list of
child references.  `str(machine)` is its printname. -/
structure Node where
  printname : String
  control : Control
  partitions : List (List Nat)
deriving DecidableEq

/-- The arena of allocated `Machine` nodes (the Python object heap). -/
structure Store where
  nodes : List Node
deriving DecidableEq

/-- A placeholder node returned when dereferencing an unallocated reference. -/
def defaultNode : Node := ⟨"", Control.noneC, []⟩

def Store.get (σ : Store) (r : Nat) : Node := σ.nodes.getD r defaultNode

def Store.set (σ : Store) (r : Nat) (n : Node) : Store := ⟨σ.nodes.set r n⟩

/-- Allocate a fresh node, returning the updated store and its reference. -/
def Store.alloc (σ : Store) (n : Node) : Store × Nat :=
  (⟨σ.nodes ++ [n]⟩, σ.nodes.length)

/-- Modelled from the spec: `Machine.append(what, which_partition)` (§6) —
append one child reference at the end of the given partition of `tgt`,
mutating the store in place. -/
def Store.append (σ : Store) (tgt : Nat) (child : Nat) (pi : Nat) : Store :=
  let nd := σ.get tgt
  σ.set tgt
    { nd with partitions := nd.partitions.set pi (nd.partitions.getD pi [] ++ [child]) }

/-- Modelled from the spec: `Machine.append_all(group, which_partition)` (§6). -/
def Store.appendAll (σ : Store) (tgt : Nat) (children : List Nat) (pi : Nat) : Store :=
  children.foldl (fun s c => s.append tgt c pi) σ

/-! ## Transition matchers and the FSA (external `fst` boundary) -/

/-- Is the first list a prefix of the second?  (Structural replacement for
`String.startsWith`, which does not reduce definitionally.) -/
def charsPrefix : List Char → List Char → Bool
  | [], _ => true
  | _ :: _, [] => false
  | c :: cs, d :: ds => c = d && charsPrefix cs ds

/-- Embeds `s.startsWith pre`. -/
def strStarts (s pre : String) : Bool := charsPrefix pre.data s.data

/-- Does the list contain the given sublist?  (Structural replacement for a
`splitOn`-based containment test.) -/
def hasSub (sub : List Char) : List Char → Bool
  | [] => charsPrefix sub []
  | c :: rest => charsPrefix sub (c :: rest) || hasSub sub rest

/-- Does `s` contain `sub` as a substring? -/
def strContains (s sub : String) : Bool := hasSub sub.data s.data

/-- Split a character list on `|` (for the supplementary-group alternation
patterns). -/
def splitOnPipe : List Char → List (List Char)
  | [] => [[]]
  | c :: rest =>
      let r := splitOnPipe rest
      if c = '|' then [] :: r
      else
        match r with
        | [] => [[c]]
        | g :: gs => (c :: g) :: gs

/-- Modelled from the spec: testing whether the POS string `pos` matches one
of the POS regexes the repository builds, each interpreted per the spec's own
reading of it (§4.3–§4.5): `"^X.*"` is "POS starts with X";
`"NOUN(?!.*CAS)"` is "a NOUN with no CAS attribute after it"; an alternation
`"(a|b|…)"` is "contains one of the alternatives"; any other pattern `p` (the
`"CAS<key>"` shapes) is "contains `p`". -/
def posMatches (pattern pos : String) : Bool :=
  if pattern = "^VERB.*" then strStarts pos "VERB"
  else if pattern = "^NOUN.*" then strStarts pos "NOUN"
  else if pattern = "^ADJ.*" then strStarts pos "ADJ"
  else if pattern = "NOUN(?!.*CAS)" then
    strStarts pos "NOUN" && !(strContains pos "CAS")
  else if strStarts pattern "(" then
    (splitOnPipe (pattern.data.drop 1).dropLast).any
      (fun alt => hasSub alt pos.data)
  else strContains pos pattern

/-- Modelled from the spec: the two external `Transition` guard kinds (§6) —
exact-or-substring printname matching (`PrintnameTransition`) and POS-string
regex matching (`PosControlTransition`). -/
inductive Matcher where
  | printnameM (s : String) (exact : Bool)
  | posM (pattern : String)
deriving DecidableEq

/-- Modelled from the spec: testing one matcher against one machine (§6). -/
def Matcher.matchesM : Matcher → Store → Nat → Bool
  | .printnameM s exact, σ, m =>
      if exact then (σ.get m).printname == s
      else strContains (σ.get m).printname s
  | .posM pattern, σ, m =>
      match (σ.get m).control with
      | .posC pos => posMatches pattern pos
      | _ => false

/-- Modelled from the spec: the external finite-automaton primitive (§6) —
states carrying is-initial/is-final flags, and guarded directed transitions.
Polymorphic in the guard type `τ`: `TheConstruction` guards transitions with
`Matcher`s directly, while the hypercube built by
`VerbConstruction.generate_control` is stated over the keys of the
`self.transitions` dictionary (that dictionary holds one distinct
`Transition` object per key, so keys and guard objects are in bijection). -/
structure FSA (τ : Type) where
  states : List (String × Bool × Bool)
  transitions : List (τ × String × String)
deriving DecidableEq

variable {τ : Type}

def FSA.add_state (f : FSA τ) (name : String) (ii fi : Bool) : FSA τ :=
  { f with states := f.states ++ [(name, ii, fi)] }

def FSA.add_transition (f : FSA τ) (t : τ) (src dst : String) : FSA τ :=
  { f with transitions := f.transitions ++ [(t, src, dst)] }

/-- Modelled from the spec: `FSA.reset` (§6) — the current state becomes the
initial state (the first state flagged `is_init`); `none` models the dead
configuration reached after a failed read. -/
def FSA.resetState (f : FSA τ) : Option String :=
  (f.states.find? (fun s => s.2.1)).map (·.1)

/-- Modelled from the spec: feeding one machine to the automaton (§6) —
follow the first transition leaving the current state whose guard matches the
machine; if none does, the automaton goes dead. -/
def FSA.readMachine (mtest : τ → Store → Nat → Bool) (f : FSA τ) (σ : Store)
    (cur : Option String) (m : Nat) : Option String :=
  cur.bind fun s =>
    (f.transitions.find? (fun t => t.2.1 == s && mtest t.1 σ m)).map (·.2.2)

/-- Modelled from the spec: is the current state a final state? (§6) -/
def FSA.inFinal (f : FSA τ) (cur : Option String) : Bool :=
  cur.elim false (fun s => f.states.any (fun st => st.1 == s && st.2.2))

/-- Embeds `Construction.check` (construction.py:22–29): reset the control, feed every
machine of the sequence in order, and report whether the automaton ended in a
final state. -/
def construction_check (mtest : τ → Store → Nat → Bool) (f : FSA τ) (σ : Store)
    (seq : List Nat) : Bool :=
  f.inFinal (seq.foldl (f.readMachine mtest σ) f.resetState)

/-- A run of an automaton along its transition list: a path from `s` to `u`
reading the listed labels. -/
inductive Path (ts : List (String × String × String)) :
    String → List String → String → Prop
  | nil (s : String) : Path ts s [] s
  | cons {lbl s t ls u} : (lbl, s, t) ∈ ts → Path ts t ls u → Path ts s (lbl :: ls) u

/-- Holds when `s` is the name of a final state of `f`. -/
def FSA.isFinalName (f : FSA τ) (s : String) : Prop := ∃ b, (s, b, true) ∈ f.states

/-- The label sequence `ls` is accepted: some run from the initial state ends
in a final state. -/
def FSA.accepts (f : FSA String) (ls : List String) : Prop :=
  ∃ s0 t, f.resetState = some s0 ∧ Path f.transitions s0 ls t ∧ f.isFinalName t

/-! ## `VerbConstruction.generate_control` (construction.py:113–144) -/

/-- Python's `list.index(a)`: index of the first occurrence of `a` in the
list (its length if absent; the Python call sites only ever look up present
elements). -/
def indexIn (l : List String) (a : String) : Nat :=
  match l with
  | [] => 0
  | b :: rest => if b = a then 0 else indexIn rest a + 1

/-- The inner loop of `generate_control` (construction.py:135–143): walk one
permutation of the argument keys starting from state 1, and for each argument
add a transition from the current state to the state increased by
`2 ^ arguments.index(arg)`. -/
def walkEdges (arguments : List String) : List String → Nat → List (String × String × String)
  | [], _ => []
  | a :: rest, s =>
      (a, str s, str (s + 2 ^ indexIn arguments a)) ::
        walkEdges arguments rest (s + 2 ^ indexIn arguments a)

/-- Embeds `VerbConstruction.generate_control` (construction.py:113–144): states
`"0"` (initial), `"1"`…`str (2^N - 1)` (internal) and `str (2^N)` (final);
the VERB transition `"0" → "1"`; and, for every permutation of the argument
keys, the edges produced by walking it from state 1.  Transitions are
labelled by the argument key, standing for the `Transition` object
`self.transitions[key]` (a bijection); the order in which the permutations
are enumerated differs from `itertools.permutations` but the resulting edge
set is the same. -/
def generate_control (arguments : List String) : FSA String :=
  { states :=
      [("0", true, false)] ++
        (List.range' 1 (2 ^ arguments.length - 1)).map (fun i => (str i, false, false)) ++
        [(str (2 ^ arguments.length), false, true)],
    transitions :=
      [("VERB", "0", "1")] ++
        arguments.permutations.flatMap (fun p => walkEdges arguments p 1) }

/-! ### The hypercube structure of `generate_control` -/

/-- The state-number contribution of a walked prefix: the sum of
`2 ^ arguments.index(b)` over its elements. -/
def msum (args l1 : List String) : Nat := (l1.map (fun b => 2 ^ indexIn args b)).sum

/-- Lookup in a Python dict modelled as an insertion-ordered association
list. -/
def lookupA {α β : Type} [DecidableEq α] : List (α × β) → α → Option β
  | [], _ => none
  | (k', v) :: rest, k => if k' = k then some v else lookupA rest k

/-- Embeds `d[k] = v` on a Python dict modelled as an insertion-ordered association
list: overwrite in place if the key exists, else append. -/
def upsertA {α β : Type} [DecidableEq α] : List (α × β) → α → β → List (α × β)
  | [], k, v => [(k, v)]
  | (k', v') :: rest, k, v =>
      if k' = k then (k', v) :: rest else (k', v') :: upsertA rest k v

/-- The `Lexicon` (lexicon.py:8–18): `static` maps printname → one canonical
machine; `active` maps printname → (machine instance ↦ expanded flag). -/
structure Lexicon where
  static : List (String × Nat)
  active : List (String × List (Nat × Bool))
deriving DecidableEq

/-- Errors the lexicon code can raise. -/
inductive LexErr where
  /-- lexicon.py:77 — "only active machines can be expanded right now". -/
  | notActive
  /-- `ValueError` from `for i, partition in …partitions[1:]` when a
  partition does not have exactly two entries (lexicon.py:84). -/
  | valueErr
  /-- `TypeError` from `part_index = i + 1` when the unpack at lexicon.py:84
  happened to succeed, making `i` a Machine (lexicon.py:86). -/
  | typeErr
deriving DecidableEq

/-- Embeds `Lexicon.__add_active_machine` (lexicon.py:33–39). -/
def add_active_machine (lex : Lexicon) (σ : Store) (m : Nat) (expanded : Bool) :
    Lexicon :=
  let printname := (σ.get m).printname
  match lookupA lex.active printname with
  | some instances =>
      { lex with active := upsertA lex.active printname (upsertA instances m expanded) }
  | none => { lex with active := upsertA lex.active printname [(m, expanded)] }

/-- Embeds `Lexicon.add_active` (lexicon.py:41–53) applied to a single machine. -/
def add_active (lex : Lexicon) (σ : Store) (m : Nat) : Lexicon :=
  add_active_machine lex σ m false

/-- Embeds `Lexicon.add_static` (lexicon.py:55–63). -/
def add_static (lex : Lexicon) (σ : Store) (ms : List Nat) : Lexicon :=
  ms.foldl (fun l m => { l with static := upsertA l.static (σ.get m).printname m }) lex

/-- Embeds `Lexicon.expand` (lexicon.py:65–93), faithful to the code including the
defect at line 84: `for i, partition in self.static[printname].base.partitions[1:]`
tries to unpack each partition (a plain list of machines) as an
`(i, partition)` pair.  On the first partition this raises `ValueError`
unless that partition has exactly two entries, in which case
`part_index = i + 1` at line 86 raises `TypeError` (`i` is a Machine, not an
integer).  Hence a static definition with any partition past index 0 makes
`expand` raise, and only a static definition with no partitions past index 0
reaches line 93 marking the machine expanded. -/
def expand (lex : Lexicon) (σ : Store) (m : Nat) : Except LexErr Lexicon :=
  let printname := (σ.get m).printname
  match lookupA lex.active printname with
  | none => .error .notActive
  | some instances =>
      if (lookupA instances m).isNone then .error .notActive
      else
        match lookupA lex.static printname with
        | none => .ok lex
        | some sm =>
            match (σ.get sm).partitions.drop 1 with
            | [] =>
                .ok { lex with
                  active := upsertA lex.active printname (upsertA instances m true) }
            | p :: _ => .error (if p.length = 2 then .typeErr else .valueErr)

/-- The loop body of `Lexicon.activate` (lexicon.py:105–118), iterating the
static pool in insertion order while threading the store (fresh machines are
allocated) and the lexicon (the active pool grows while iterating);
exceptions raised by `expand` propagate out of `activate`. -/
def activateGo : List (String × Nat) → Lexicon → Store → List Nat →
    Except LexErr (List Nat × Lexicon × Store)
  | [], lex, σ, acc => .ok (acc, lex, σ)
  | (printname, sm) :: rest, lex, σ, acc =>
      let ready := ((σ.get sm).partitions.drop 1).all
        (fun p => p.all (fun mr => (lookupA lex.active (σ.get mr).printname).isSome))
      if ready then
        let alloced := σ.alloc ⟨printname, Control.noneC, [[]]⟩
        let lex' := add_active lex alloced.1 alloced.2
        match expand lex' alloced.1 alloced.2 with
        | .error e => .error e
        | .ok lex'' => activateGo rest lex'' alloced.1 (acc ++ [alloced.2])
      else activateGo rest lex σ acc

/-- Embeds `Lexicon.activate` (lexicon.py:95–119): one pass over every static
definition; a concept is ready when every machine in its partitions at index
≥ 1 has its printname in the active pool; every ready concept yields a fresh
`Machine(Monoid(printname))` (modelled from the spec: the external `Machine`
constructor with only a name makes a node with the default partition 0 and no
control), which is registered active, expanded, and collected. -/
def activate (lex : Lexicon) (σ : Store) : Except LexErr (List Nat × Lexicon × Store) :=
  activateGo lex.static lex σ []

/-- Modelled from the spec: the external deep-case constant table
(`constants.deep_cases`, §6) — an enumeration of grammatical semantic-role
labels used as a membership test when discovering verb arguments; the claims
rely only on it containing the nominative and accusative labels. -/
def deep_cases : List String := ["NOM", "ACC", "DAT", "INS", "SUBL"]

/-- Errors construction code can raise. -/
inductive ConstructionErr where
  /-- `IndexError` on `seq[1]` for a too-short sequence. -/
  | indexErr
  /-- `AttributeError`: the machine's control has no `pos` field. -/
  | attrErrPos
  /-- `AttributeError`: `self.case_locations` is never assigned
  (construction.py:199 — discovery fills `arg_locations` instead). -/
  | attrErrCaseLocations
  /-- construction.py:205 — "Every machine at this point of the code has to
  match a case pattern". -/
  | casePatternErr
  /-- `TypeError`: `arguments[arg]` indexes the key *list* with a string
  (construction.py:100/106/111). -/
  | typeErr
  /-- Recursion fuel exhausted (models Python's unbounded recursion on
  cyclic graphs; never happens on the well-founded inputs used here). -/
  | fuelErr
deriving DecidableEq

/-- The argument dictionary built by `discover_arguments`: label →
list of (containing machine, partition index), insertion-ordered
(a `defaultdict(list)`). -/
abbrev DMap := List (String × List (Nat × Nat))

/-- Embeds `d[pn].append(loc)` on a `defaultdict(list)`. -/
def dAppend (d : DMap) (k : String) (v : Nat × Nat) : DMap :=
  match lookupA d k with
  | some l => upsertA d k (l ++ [v])
  | none => upsertA d k [v]

/-- The inner loop of `discover_arguments` over one partition's machines
(construction.py:155–164), parameterized by the recursive call `rec`
(discovery on a child machine at the remaining recursion depth): record every
child whose printname is a deep case or starts with `"@"` under that label
with location `(machine, partition index)`, remember the *last* matched index
in `to_remove`, and recurse into every child, matched or not. -/
def discoverMachinesF (rec : Store → Nat → DMap → Option (Store × DMap)) :
    Store → Nat → Nat → List Nat → Nat → DMap → Option Nat →
    Option (Store × DMap × Option Nat)
  | σ, _, _, [], _, d, to_remove => some (σ, d, to_remove)
  | σ, mref, pi, pm :: rest, mi, d, to_remove =>
      let pn := (σ.get pm).printname
      let hit := deep_cases.contains pn || strStarts pn "@"
      let d1 := if hit then dAppend d pn (mref, pi) else d
      let tr1 := if hit then some mi else to_remove
      match rec σ pm d1 with
      | none => none
      | some (σ1, d2) => discoverMachinesF rec σ1 mref pi rest (mi + 1) d2 tr1

/-- The outer loop of `discover_arguments` over `partitions[1:]`
(construction.py:152–168): run the inner loop on each partition, then, if
`to_remove` was set, rebuild that partition without the element at that
index. -/
def discoverPartsF (rec : Store → Nat → DMap → Option (Store × DMap)) :
    Store → Nat → List (List Nat) → Nat → DMap → Option (Store × DMap)
  | σ, _, [], _, d => some (σ, d)
  | σ, mref, p :: ps, pi, d =>
      match discoverMachinesF rec σ mref pi p 0 d none with
      | none => none
      | some (σ1, d1, to_remove) =>
          let σ2 := match to_remove with
            | none => σ1
            | some mi =>
                let nd := σ1.get mref
                σ1.set mref { nd with partitions :=
                                nd.partitions.set pi (p.take mi ++ p.drop (mi + 1)) }
          discoverPartsF rec σ2 mref ps (pi + 1) d1

/-- Embeds `VerbConstruction.discover_arguments` (construction.py:146–170): walk the
partitions at index ≥ 1 of the machine with the two loops above.  Fuel bounds
the recursion depth (Python recurses unboundedly on cyclic graphs). -/
def discover_arguments : Nat → Store → Nat → DMap → Option (Store × DMap)
  | 0, _, _, _ => none
  | fuel + 1, σ, mref, d =>
      discoverPartsF (discover_arguments fuel) σ mref
        ((σ.get mref).partitions.drop 1) 1 d

/-- One partition's worth of `copy.deepcopy` work, parameterized by the
recursive call. -/
def copyRefListF (rec : Store → Nat → Option (Store × Nat)) :
    Store → List Nat → Option (Store × List Nat)
  | σ, [] => some (σ, [])
  | σ, r :: rs =>
      match rec σ r with
      | none => none
      | some (σ1, r') =>
          match copyRefListF rec σ1 rs with
          | none => none
          | some (σ2, rs') => some (σ2, r' :: rs')

/-- All partitions' worth of `copy.deepcopy` work. -/
def copyPartsListF (rec : Store → Nat → Option (Store × Nat)) :
    Store → List (List Nat) → Option (Store × List (List Nat))
  | σ, [] => some (σ, [])
  | σ, p :: ps =>
      match copyRefListF rec σ p with
      | none => none
      | some (σ1, p') =>
          match copyPartsListF rec σ1 ps with
          | none => none
          | some (σ2, ps') => some (σ2, p' :: ps')

/-- Modelled from the spec: `copy.deepcopy` of a machine (construction.py:184)
— recursively copy the node and everything reachable from it into fresh
nodes.  Fuel-bounded; Python's `deepcopy` additionally memoises shared and
cyclic sub-objects, which the claims do not exercise. -/
def deepCopy : Nat → Store → Nat → Option (Store × Nat)
  | 0, _, _ => none
  | fuel + 1, σ, r =>
      match copyPartsListF (deepCopy fuel) σ (σ.get r).partitions with
      | none => none
      | some (σ1, parts) =>
          some (σ1.alloc ⟨(σ.get r).printname, (σ.get r).control, parts⟩)

/-- Python's `list.remove(a)`: drop the first occurrence. -/
def removeFirst : List String → String → List String
  | [], _ => []
  | b :: rest, a => if b = a then rest else b :: removeFirst rest a

/-- Embeds `VerbConstruction.generate_phi` (construction.py:82–111), faithful to the
defect at lines 100/106/111: `arguments` is the key *list*
`self.arg_locations.keys()`, so `self.phi[pt] = arguments[arg]` indexes a
list with a string and raises `TypeError`; this is reached as soon as there
is at least one non-VERB argument.  With no discovered arguments the method
succeeds, leaving the VERB transition mapped to `None`. -/
def generate_phi (arg_locations : DMap) :
    Except ConstructionErr
      (List (String × Matcher) × List (Matcher × Option (List (Nat × Nat)))) :=
  let vt := Matcher.posM "^VERB.*"
  match arg_locations with
  | [] => .ok ([("VERB", vt)], [(vt, none)])
  | _ :: _ => .error .typeErr

/-- Embeds `re.match` of `N(OUN|P)[^C]*CAS<([^>]*)>` — capture everything before the
next `>` once `CAS<` is found. -/
def caseCapture : List Char → Option String
  | [] => none
  | c :: cs => if c = '>' then some "" else (caseCapture cs).map (fun s => ⟨c :: s.data⟩)

/-- Embeds `[^C]*CAS<` — skip to the first `C`, which must begin `CAS<`. -/
def caseSeek : List Char → Option String
  | [] => none
  | c :: cs =>
      if c = 'C' then
        match cs with
        | 'A' :: 'S' :: '<' :: rest => caseCapture rest
        | _ => none
      else caseSeek cs

/-- Embeds `self.case_pattern.match(pos)` for the pattern
`N(OUN|P)[^C]*CAS<([^>]*)>` (construction.py:78, 196), returning capture
group 2: after the prefix `NOUN` (tried first) or `NP`, the first `C` of the
remainder must begin `CAS<`, and the group is whatever stands before the
next `>`. -/
def casePatternMatch (pos : String) : Option String :=
  if strStarts pos "NOUN" then caseSeek (pos.data.drop 4)
  else if strStarts pos "NP" then caseSeek (pos.data.drop 2)
  else none

/-- The state of one `VerbConstruction` instance (construction.py:66–80). -/
structure VerbConstruction where
  name : String
  machine : Nat
  supp_dict : List (String × List String)
  arg_locations : DMap
  transitions : List (String × Matcher)
  phi : List (Matcher × Option (List (Nat × Nat)))
  control : FSA String
  activated : Bool
deriving DecidableEq

/-- Guard interpretation for the verb automaton: a transition labelled by key
`k` stands for the `Transition` object `self.transitions[k]`. -/
def keyMatches (transitions : List (String × Matcher)) (k : String) (σ : Store)
    (m : Nat) : Bool :=
  match lookupA transitions k with
  | some mt => mt.matchesM σ m
  | none => false

/-- Embeds `VerbConstruction.__init__` (construction.py:71–80): discover the
arguments, generate the transitions (`generate_phi`), and build the hypercube
control from the transition keys minus `"VERB"`.  With at least one argument
this raises the `TypeError` of `generate_phi`; with none it succeeds. -/
def VerbConstruction.init (fuel : Nat) (name : String) (machine : Nat)
    (supp_dict : List (String × List String)) (σ : Store) :
    Except ConstructionErr (VerbConstruction × Store) :=
  match discover_arguments fuel σ machine [] with
  | none => .error .fuelErr
  | some (σ1, arg_locations) =>
      match generate_phi arg_locations with
      | .error e => .error e
      | .ok (transitions, phi) =>
          .ok ({ name := name, machine := machine, supp_dict := supp_dict,
                 arg_locations := arg_locations, transitions := transitions,
                 phi := phi,
                 control := generate_control (removeFirst (transitions.map (·.1)) "VERB"),
                 activated := false }, σ1)

/-- Embeds `VerbConstruction.check` (construction.py:172–176): once `activated` is
true refuse to match unconditionally, whatever the control's current state
`cur`; otherwise defer to the base class check, which resets the control. -/
def VerbConstruction.check (vc : VerbConstruction) (σ : Store)
    (cur : Option String) (seq : List Nat) : Bool :=
  if vc.activated then false
  else construction_check (keyMatches vc.transitions) vc.control σ seq

/-- The first loop of `VerbConstruction.act` (construction.py:189–206):
classify every machine of the sequence.  A machine whose printname equals the
verb's has its control copied onto `verb_machine` in place; any other machine
raises: `AttributeError` on the control's missing `pos` field, else
`AttributeError` on `self.case_locations` (never assigned — discovery fills
`arg_locations` instead) when its POS matches the case pattern or starts with
`NOUN`, else the "has to match a case pattern" exception. -/
def actLoop1 (verbName : String) (verbRef : Nat) :
    Store → List Nat → Except ConstructionErr Store
  | σ, [] => .ok σ
  | σ, m :: rest =>
      if (σ.get m).printname = verbName then
        actLoop1 verbName verbRef
          (σ.set verbRef { σ.get verbRef with control := (σ.get m).control }) rest
      else
        match (σ.get m).control with
        | .posC pos =>
            if (casePatternMatch pos).isSome || strStarts pos "NOUN" then
              .error .attrErrCaseLocations
            else .error .casePatternErr
        | _ => .error .attrErrPos

/-- The inner loop over `self.phi` for one machine (construction.py:209–218):
skip `None` entries; on the first matching transition append the machine into
every recorded location and stop. -/
def phiLoop (m : Nat) :
    Store → List (Matcher × Option (List (Nat × Nat))) → Store
  | σ, [] => σ
  | σ, (mt, locs) :: rest =>
      match locs with
      | none => phiLoop m σ rest
      | some ls =>
          if mt.matchesM σ m then ls.foldl (fun s loc => s.append loc.1 m loc.2) σ
          else phiLoop m σ rest

/-- Embeds `VerbConstruction.act` (construction.py:178–221): deep-copy the verb
prototype into a fresh `self.machine`, start the result with the old
machine, run the classification loop, run the phi binding loop, set
`activated`, and return `[verb_machine]`. -/
def VerbConstruction.act (fuel : Nat) (vc : VerbConstruction) (σ : Store)
    (seq : List Nat) :
    Except ConstructionErr (VerbConstruction × Store × List Nat) :=
  match deepCopy fuel σ vc.machine with
  | none => .error .fuelErr
  | some (σ1, clear) =>
      match actLoop1 (σ1.get clear).printname vc.machine σ1 seq with
      | .error e => .error e
      | .ok σ2 =>
          let σ3 := seq.foldl (fun s m => phiLoop m s vc.phi) σ2
          .ok ({ vc with machine := clear, activated := true }, σ3, [vc.machine])

/-- The control automaton of `TheConstruction` (construction.py:226–234). -/
def theConstructionControl : FSA Matcher :=
  ((((((⟨[], []⟩ : FSA Matcher).add_state "0" true false).add_state
      "1" false false).add_state "2" false true).add_transition
      (Matcher.printnameM "the" true) "0" "1").add_transition
      (Matcher.posM "^NOUN.*") "1" "2")

/-- Embeds `TheConstruction.act` (construction.py:236–241): run the (always-true)
`last_check`, append `"<DET>"` to `seq[1]`'s POS control string in place, and
return the one-element sequence holding that same machine (the same
reference, not a copy). -/
def theConstruction_act (σ : Store) (seq : List Nat) :
    Except ConstructionErr (List Nat × Store) :=
  match seq with
  | _ :: second :: _ =>
      match (σ.get second).control with
      | .posC pos =>
          .ok ([second],
            σ.set second { σ.get second with control := .posC (pos ++ "<DET>") })
      | _ => .error .attrErrPos
  | _ => .error .indexErr

/-- Embeds `Construction.run` (construction.py:31–40) for `TheConstruction`: `check`
(which reads the sequence into the control), then if the control is in a
final state, `act`; otherwise no value. -/
def theConstruction_run (σ : Store) (seq : List Nat) :
    Option (Except ConstructionErr (List Nat × Store)) :=
  if construction_check Matcher.matchesM theConstructionControl σ seq
  then some (theConstruction_act σ seq)
  else none

/-- A pyparsing parse subtree as handed to `__parse_expr`: nested groups of
string tokens. -/
inductive PTree where
  | leaf (s : String)
  | node (children : List PTree)

/-- Is this element the given literal token?  (Python `expr[i] == "tok"`,
false for a parse group.) -/
def PTree.isTok : PTree → String → Bool
  | .leaf s, t => s == t
  | .node _, _ => false

/-- Errors of the parsing pipeline. -/
inductive PErr where
  /-- `ParserException` raised by the tree-to-graph conversion. -/
  | parserExc (msg : String)
  /-- `pyparsing.ParseException`: the grammar rejected the line. -/
  | parseExc (msg : String)
  /-- `IndexError` (`[0]` of an empty machine list in `__parse_definition`). -/
  | indexErr
  /-- `TypeError` (e.g. string concatenation with a parse group). -/
  | typeErr
  /-- Recursion fuel exhausted (model artefact; ample fuel is supplied). -/
  | fuelErr
deriving DecidableEq

/-- A character admitted by the unary pattern (lowercase letters, underscore,
hash, hyphen, slash, digits). -/
def isUnaryChar (c : Char) : Bool :=
  ('a' ≤ c && c ≤ 'z') || c = '_' || c = '#' || c = '-' || c = '/' ||
    ('0' ≤ c && c ≤ '9')

/-- The anchored unary regex of definition_parser.py:86. -/
def unaryRe (s : String) : Bool := !s.data.isEmpty && s.data.all isUnaryChar

/-- A character admitted by the binary pattern (uppercase letters,
underscore, digits). -/
def isBinaryChar (c : Char) : Bool :=
  ('A' ≤ c && c ≤ 'Z') || c = '_' || ('0' ≤ c && c ≤ '9')

/-- The anchored binary regex of definition_parser.py:87. -/
def binaryRe (s : String) : Bool := !s.data.isEmpty && s.data.all isBinaryChar

/-- Embeds `DefinitionParser._is_unary` (definition_parser.py:97–101): a string
matching the unary pattern, or anything whose first element is the deep-case
prefix `"!"` (for a string, its first character; for a parsed group, its
first token), or the parsed group `["=", "root"]` (for a string the test
`s[1:] == ["root"]` compares a string with a list and is always false). -/
def is_unary : PTree → Bool
  | .leaf s => unaryRe s || strStarts s "!"
  | .node [] => false
  | .node (t0 :: ts) =>
      t0.isTok "!" ||
        (t0.isTok "=" && (match ts with
          | [t1] => t1.isTok "root"
          | _ => false))

/-- Embeds `DefinitionParser._is_binary` (definition_parser.py:92–95): a string
matching the binary pattern, or the string `"=ROOT"`; for a parsed group the
second test compares a list with the string `"ROOT"` and is always false. -/
def is_binary : PTree → Bool
  | .leaf s => binaryRe s || (strStarts s "=" && s.data.drop 1 == "ROOT".data)
  | .node _ => false

/-- Embeds `is_tree` (definition_parser.py:229): is the element a nested group? -/
def is_tree : PTree → Bool
  | .node _ => true
  | .leaf _ => false

/-- Modelled from the spec: the external legacy text decoder
(`decode_from_proszeky`, §6) — converts one legacy-encoded token into
normalized text; modelled as the identity normalization (the concrete tokens
in the claims are unaffected by it). -/
def decode_from_proszeky (s : String) : String := s

/-- Embeds `create_machine` (definition_parser.py:20–21): a machine named by the
decoded token, carrying a `ConceptControl`, with the given number of (empty)
partitions. -/
def create_machine (σ : Store) (name : String) (nparts : Nat) : Store × Nat :=
  σ.alloc ⟨decode_from_proszeky name, Control.conceptC, List.replicate nparts []⟩

/-- Embeds `__parse_definition` (definition_parser.py:370–372), parameterized by the
recursive call: parse each clause and keep the first machine of each result
(`IndexError` when a clause yields none). -/
def parse_definitionF
    (rec : List PTree → Nat → Nat → Store → Except PErr (List Nat × Store)) :
    List PTree → Nat → Nat → Store → Except PErr (List Nat × Store)
  | [], _, _, σ => .ok ([], σ)
  | d :: ds, parent, root, σ =>
      match d with
      | .leaf _ => .error (.parserExc "Unknown expression in definition")
      | .node c =>
          match rec c parent root σ with
          | .error e => .error e
          | .ok ([], _) => .error .indexErr
          | .ok (m :: _, σ1) =>
              match parse_definitionF rec ds parent root σ1 with
              | .error e => .error e
              | .ok (rest, σ2) => .ok (m :: rest, σ2)

/-- Embeds `DefinitionParser.__parse_expr` (definition_parser.py:216–368): one
handler per production shape, tried in source order, discriminated by the
subtree's length and per-position `is_tree` / `is_unary` / `is_binary`
tests.  In the `E -> U ( BE )` handler the machine appended into the inner
machine's partition 0 is `create_machine(expr[1], 1)` — named after the
literal `"("` token, exactly as in the source.  Fuel bounds the recursion
depth. -/
def parse_expr : Nat → List PTree → Nat → Nat → Store →
    Except PErr (List Nat × Store)
  | 0, _, _, _, _ => .error .fuelErr
  | fuel + 1, expr, parent, root, σ =>
      match expr with
      | [e0] =>
          match e0 with
          | .node c => parse_expr fuel c parent root σ
          | .leaf s =>
              if is_unary (.leaf s) then
                let cm := create_machine σ s 1
                .ok ([cm.2], cm.1)
              else .error (.parserExc "Unknown expression in definition")
      | [e0, e1] =>
          if is_tree e0 && is_binary e1 then
            match e0, e1 with
            | .node c, .leaf b =>
                let cm := create_machine σ b 2
                match parse_expr fuel c cm.2 root cm.1 with
                | .error e => .error e
                | .ok (ms, σ1) =>
                    .ok ([cm.2], (σ1.appendAll cm.2 ms 0).append cm.2 root 1)
            | _, _ => .error (.parserExc "Unknown expression in definition")
          else if is_binary e0 && is_tree e1 then
            match e0, e1 with
            | .leaf b, .node c =>
                let cm := create_machine σ b 2
                match parse_expr fuel c cm.2 root cm.1 with
                | .error e => .error e
                | .ok (ms, σ1) =>
                    .ok ([cm.2], (σ1.appendAll cm.2 ms 1).append cm.2 root 0)
            | _, _ => .error (.parserExc "Unknown expression in definition")
          else if e0.isTok "'" && is_binary e1 then
            match e1 with
            | .leaf b =>
                let cm := create_machine σ b 2
                .ok ([], cm.1.append cm.2 parent 1)
            | .node _ => .error (.parserExc "Unknown expression in definition")
          else if is_binary e0 && e1.isTok "'" then
            match e0 with
            | .leaf b =>
                let cm := create_machine σ b 2
                .ok ([], cm.1.append cm.2 parent 0)
            | .node _ => .error (.parserExc "Unknown expression in definition")
          else if e0.isTok "!" then
            match e1 with
            | .leaf x =>
                let cm := create_machine σ ("!" ++ x) 1
                .ok ([cm.2], cm.1)
            | .node _ => .error .typeErr
          else if e0.isTok "$" then
            match e1 with
            | .leaf x =>
                let cm := create_machine σ ("$" ++ x) 1
                .ok ([cm.2], cm.1)
            | .node _ => .error .typeErr
          else if e0.isTok "#" then
            match e1 with
            | .leaf x =>
                let cm := create_machine σ ("#" ++ x) 1
                .ok ([cm.2], cm.1)
            | .node _ => .error .typeErr
          else if e0.isTok "=" then
            match e1 with
            | .leaf x =>
                let cm := create_machine σ ("=" ++ x) 1
                .ok ([cm.2], cm.1)
            | .node _ => .error .typeErr
          else if e0.isTok "@" then
            match e1 with
            | .leaf x =>
                let cm := create_machine σ ("@" ++ x) 1
                .ok ([cm.2], cm.1)
            | .node _ => .error .typeErr
          else .error (.parserExc "Unknown expression in definition")
      | [e0, e1, e2] =>
          if is_tree e0 && is_binary e1 && is_tree e2 then
            match e0, e1, e2 with
            | .node c0, .leaf b, .node c2 =>
                let cm := create_machine σ b 2
                match parse_expr fuel c0 cm.2 root cm.1 with
                | .error e => .error e
                | .ok (ms0, σ1) =>
                    let σ2 := σ1.appendAll cm.2 ms0 0
                    match parse_expr fuel c2 cm.2 root σ2 with
                    | .error e => .error e
                    | .ok (ms2, σ3) => .ok ([cm.2], σ3.appendAll cm.2 ms2 1)
            | _, _, _ => .error (.parserExc "Unknown expression in definition")
          else if e0.isTok "[" && is_tree e1 && e2.isTok "]" then
            match e1 with
            | .node ds => parse_definitionF (parse_expr fuel) ds parent root σ
            | .leaf _ => .error (.parserExc "Unknown expression in definition")
          else .error (.parserExc "Unknown expression in definition")
      | [e0, e1, e2, e3] =>
          if is_unary e0 && e1.isTok "(" && is_tree e2 &&
              e3.isTok ")" then
            match e1, e2 with
            | .leaf s1, .node c =>
                match parse_expr fuel c parent root σ with
                | .error e => .error e
                | .ok (ms, σ1) =>
                    let σ2 :=
                      match ms with
                      | [] => σ1
                      | m0 :: _ =>
                          let cm := create_machine σ1 s1 1
                          cm.1.append m0 cm.2 0
                    if ms.length ≠ 1 then
                      .error (.parserExc "semantics of U(BE) rule has errors")
                    else .ok (ms, σ2)
            | _, _ => .error (.parserExc "Unknown expression in definition")
          else if is_unary e0 && e1.isTok "[" && is_tree e2 &&
              e3.isTok "]" then
            match e0, e2 with
            | .leaf s0, .node ds =>
                let cm := create_machine σ s0 1
                match parse_definitionF (parse_expr fuel) ds cm.2 root cm.1 with
                | .error e => .error e
                | .ok (ms, σ1) => .ok ([cm.2], σ1.appendAll cm.2 ms 0)
            | _, _ => .error .typeErr
          else if is_unary e0 && e1.isTok "(" && is_unary e2 &&
              e3.isTok ")" then
            match e2, e0 with
            | .leaf s2, .leaf s0 =>
                let cm2 := create_machine σ s2 1
                let cm0 := create_machine cm2.1 s0 1
                .ok ([cm2.2], cm0.1.append cm2.2 cm0.2 0)
            | _, _ => .error .typeErr
          else .error (.parserExc "Unknown expression in definition")
      | [e0, e1, e2, e3, e4, e5] =>
          if is_binary e0 && e1.isTok "[" && is_tree e2 &&
              e3.isTok ";" && is_tree e4 && e5.isTok "]" then
            match e0, e2, e4 with
            | .leaf b, .node c2, .node c4 =>
                let cm := create_machine σ b 2
                match parse_expr fuel c2 cm.2 root cm.1 with
                | .error e => .error e
                | .ok (ms2, σ1) =>
                    let σ2 := σ1.appendAll cm.2 ms2 0
                    match parse_expr fuel c4 cm.2 root σ2 with
                    | .error e => .error e
                    | .ok (ms4, σ3) => .ok ([cm.2], σ3.appendAll cm.2 ms4 1)
            | _, _, _ => .error (.parserExc "Unknown expression in definition")
          else .error (.parserExc "Unknown expression in definition")
      | _ => .error (.parserExc "Unknown expression in definition")

/-- A parsed sentence `[defid, word-record, optional definition clauses]` as
returned by `DefinitionParser.parse`. -/
abbrev SenParse := String × List String × Option (List PTree)

/-- Embeds `DefinitionParser.parse_into_machines` (definition_parser.py:374–383):
build the head machine named by the selected word-record field and append
every machine of the parsed definition body into its partition 0 (the head
machine is both parent and root). -/
def parse_into_machines (fuel : Nat) (sen : SenParse) (printname_index : Nat)
    (σ : Store) : Except PErr (Nat × Store) :=
  let cm := create_machine σ (sen.2.1.getD printname_index "") 1
  match sen.2.2 with
  | none => .ok (cm.2, cm.1)
  | some ds =>
      match parse_definitionF (parse_expr fuel) ds cm.2 cm.2 cm.1 with
      | .error e => .error e
      | .ok (ms, σ1) => .ok (cm.2, σ1.appendAll cm.2 ms 0)

/-- Python's `str.strip()` over ASCII whitespace. -/
def isSpaceChar (c : Char) : Bool := c = ' ' || c = '\t' || c = '\n' || c = '\r'

/-- Embeds `line.strip()`. -/
def strTrim (s : String) : String :=
  ⟨((s.data.dropWhile isSpaceChar).reverse.dropWhile isSpaceChar).reverse⟩

/-- A per-line parser: what `dp.parse_into_machines` does to one stripped
line (the grammar half runs in the external pyparsing engine). -/
abbrev LineParse := String → Store → Except PErr (Nat × Store)

/-- Embeds `read` (definition_parser.py:385–402), parameterized by the per-line
parser: strip each line; skip empty lines and lines starting with `"%"`; on
success store the head machine under its printname (overwriting an earlier
entry); on a `pyparsing.ParseException` print the line and the message
(collected in `reports`) and continue with the next line; any *other*
exception — in particular the `ParserException` of the tree-to-graph
conversion — is not caught by the `except pyparsing.ParseException` clause
and propagates. -/
def read (pim : LineParse) :
    List String → Store → List (String × Nat) → List (String × String) →
    Except PErr (List (String × Nat) × Store × List (String × String))
  | [], σ, d, reports => .ok (d, σ, reports)
  | line :: rest, σ, d, reports =>
      let l := strTrim line
      if l.data.isEmpty then read pim rest σ d reports
      else if strStarts l "%" then read pim rest σ d reports
      else
        match pim l σ with
        | .ok (m, σ1) => read pim rest σ1 (upsertA d (σ1.get m).printname m) reports
        | .error (.parseExc msg) => read pim rest σ d (reports ++ [(l, msg)])
        | .error e => .error e

/-! ### `unify` (definition_parser.py:23–61) -/

/-- Embeds `__has_other` (definition_parser.py:31–35): does partition 0 hold a child
named `"other"`? -/
def has_other (σ : Store) (r : Nat) : Bool :=
  ((σ.get r).partitions.getD 0 []).any (fun c => (σ.get c).printname == "other")

/-- The machine groups collected by `__collect_machines`, keyed by
(printname, has-other flag), in first-insertion order (modelling the dict
iteration of `machines.iteritems()`). -/
abbrev CMap := List ((String × Bool) × List Nat)

/-- Embeds `machines[key].append(r)` on the `defaultdict(list)`. -/
def cAppend (acc : CMap) (k : String × Bool) (v : Nat) : CMap :=
  match lookupA acc k with
  | some l => upsertA acc k (l ++ [v])
  | none => upsertA acc k [v]

/-- One list's worth of `__collect_machines` recursion, parameterized by the
recursive call. -/
def collectListF (rec : Store → Nat → CMap → Option CMap) :
    Store → List Nat → CMap → Option CMap
  | _, [], acc => some acc
  | σ, c :: cs, acc =>
      match rec σ c acc with
      | none => none
      | some acc1 => collectListF rec σ cs acc1

/-- Embeds `__collect_machines` (definition_parser.py:24–29): record every machine
reachable from `r` under its (printname, has-other) key — once per
*occurrence*, there is no visited set — skipping only the root itself.
Fuel bounds the recursion depth. -/
def collect_machines : Nat → Store → Nat → Bool → CMap → Option CMap
  | 0, _, _, _, _ => none
  | fuel + 1, σ, r, is_root, acc =>
      let acc1 := if is_root then acc
        else cAppend acc ((σ.get r).printname, has_other σ r) r
      collectListF (fun s c a => collect_machines fuel s c false a) σ
        (σ.get r).partitions.flatten acc1

/-- Embeds `__get_unified` (definition_parser.py:37–45): a fresh machine named after
the group's first member with as many partitions, holding every member's
non-"other" children partition-index-wise (with multiplicity: one pass per
group list entry). -/
def get_unified (σ : Store) (group : List Nat) : Store × Nat :=
  let proto := group.headD 0
  let cm := create_machine σ (σ.get proto).printname (σ.get proto).partitions.length
  let σ1 := group.foldl (fun s m =>
    (List.range (s.get m).partitions.length).foldl (fun s2 p_i =>
      ((s2.get m).partitions.getD p_i []).foldl (fun s3 part_m =>
        if (s3.get part_m).printname == "other" then s3
        else s3.append cm.2 part_m p_i) s2) s) cm.1
  (σ1, cm.2)

/-- The inner slot loop of `__replace` over one partition (by index, reading
the live store): if the occupant's printname and has-other flag match, the
slot is overwritten with `forWhat`; then the (possibly just replaced)
occupant is recursed into. -/
def replacePartLoop (rec : Store → Nat → Option Store) (whereR forWhat : Nat)
    (pn : String) (is_other : Bool) (p_i : Nat) :
    Nat → Nat → Store → Option Store
  | 0, _, σ => some σ
  | n + 1, part_m_i, σ =>
      let cur := ((σ.get whereR).partitions.getD p_i []).getD part_m_i 0
      let σ1 :=
        if (σ.get cur).printname == pn && has_other σ cur == is_other then
          let nd := σ.get whereR
          let newParts :=
            nd.partitions.set p_i ((nd.partitions.getD p_i []).set part_m_i forWhat)
          σ.set whereR { nd with partitions := newParts }
        else σ
      let occ := ((σ1.get whereR).partitions.getD p_i []).getD part_m_i 0
      match rec σ1 occ with
      | none => none
      | some σ2 => replacePartLoop rec whereR forWhat pn is_other p_i n (part_m_i + 1) σ2

/-- The outer partition loop of `__replace`. -/
def replacePartsLoop (rec : Store → Nat → Option Store) (whereR forWhat : Nat)
    (pn : String) (is_other : Bool) : Nat → Nat → Store → Option Store
  | 0, _, σ => some σ
  | n + 1, p_i, σ =>
      match replacePartLoop rec whereR forWhat pn is_other p_i
          ((σ.get whereR).partitions.getD p_i []).length 0 σ with
      | none => none
      | some σ1 => replacePartsLoop rec whereR forWhat pn is_other n (p_i + 1) σ1

/-- Embeds `__replace` (definition_parser.py:47–53), fuel-bounded (Python recurses
unboundedly when a replacement reaches itself). -/
def replaceM : Nat → Store → Nat → Nat → Bool → Option Store
  | 0, _, _, _, _ => none
  | fuel + 1, σ, whereR, forWhat, is_other =>
      replacePartsLoop (fun s occ => replaceM fuel s occ forWhat is_other)
        whereR forWhat (σ.get forWhat).printname is_other
        (σ.get whereR).partitions.length 0 σ

/-- The group loop of `unify` (definition_parser.py:58–61). -/
def unifyGroups (fuel : Nat) (rootR : Nat) : CMap → Store → Option Store
  | [], σ => some σ
  | (k, group) :: rest, σ =>
      let u := get_unified σ group
      match replaceM fuel u.1 rootR u.2 k.2 with
      | none => none
      | some σ1 => unifyGroups fuel rootR rest σ1

/-- Embeds `unify` (definition_parser.py:23–61): collect every machine reachable
from the root (once per occurrence), grouped by (printname, has-other flag);
then, group by group in collection order, build the consolidated machine and
replace every matching occurrence in the graph with it. -/
def unify (fuel : Nat) (σ : Store) (rootR : Nat) : Option Store :=
  match collect_machines fuel σ rootR true [] with
  | none => none
  | some cmap => unifyGroups fuel rootR cmap σ

/-- The j-th child in partition i of machine r. -/
def childAt (σ : Store) (r i j : Nat) : Nat :=
  ((σ.get r).partitions.getD i []).getD j 0

/-- Modelled from the spec: the sentence grammar of §4.8 as executed by the
external pyparsing engine, tabulated for the concrete lines the claims
exercise — each grammatical line's parse result
`[defid, word-record, definition clauses]`, and a `ParseException` for the
line with the unbalanced bracket, which the grammar rejects. -/
def pyparsing_sen : String → Except PErr SenParse
  | "1 w N e l p : u1" =>
      .ok ("1", ["w", "N", "e", "l", "p"],
        some [PTree.node [PTree.node [PTree.leaf "u1"]]])
  | "2 x N e l p : [" =>
      .error (.parseExc "Expected end of text")
  | "3 w N e l p : u2" =>
      .ok ("3", ["w", "N", "e", "l", "p"],
        some [PTree.node [PTree.node [PTree.leaf "u2"]]])
  | "4 v N e l p : u('REL)" =>
      .ok ("4", ["v", "N", "e", "l", "p"],
        some [PTree.node [PTree.leaf "u", PTree.leaf "(",
          PTree.node [PTree.leaf "'", PTree.leaf "REL"], PTree.leaf ")"]])
  | _ => .error (.parseExc "Expected end of text")

/-- Embeds `dp.parse_into_machines` for one line: the grammar oracle above followed
by the embedded tree-to-graph conversion. -/
def pimC7 : LineParse := fun l σ =>
  match pyparsing_sen l with
  | .error e => .error e
  | .ok sen => parse_into_machines 10 sen 0 σ

/-- The C9 example graph: the concept `X` occurs as a descendant twice (under
`A` and under `B`), with disjoint children `c` and `d`. -/
def σC9 : Store :=
  ⟨[⟨"c", Control.conceptC, [[]]⟩, ⟨"d", Control.conceptC, [[]]⟩,
    ⟨"X", Control.conceptC, [[0]]⟩, ⟨"X", Control.conceptC, [[1]]⟩,
    ⟨"A", Control.conceptC, [[2]]⟩, ⟨"B", Control.conceptC, [[3]]⟩,
    ⟨"R", Control.conceptC, [[4, 5]]⟩]⟩

theorem digChar_toNat_sub {m : Nat} (hm : m < 10) : (digChar m).toNat - 48 = m := by
  interval_cases m <;> rfl

theorem strAux_append (f : Nat) : ∀ n acc, strAux f n acc = strAux f n [] ++ acc := by
  induction f with
  | zero => intro n acc; rfl
  | succ f ih =>
    intro n acc
    by_cases h : n / 10 = 0
    · simp [strAux, h]
    · simp only [strAux, h, if_false]
      rw [ih, ih (n / 10) [digChar (n % 10)]]
      simp

theorem digitsVal_strAux (f : Nat) : ∀ n, n ≤ f → digitsVal (strAux f n []) = n := by
  induction f with
  | zero =>
    intro n hn
    have : n = 0 := Nat.le_zero.mp hn
    subst this; rfl
  | succ f ih =>
    intro n hn
    by_cases h : n / 10 = 0
    · simp only [strAux, h, if_true]
      simp [digitsVal, digChar_toNat_sub (show n % 10 < 10 by omega)]
      omega
    · simp only [strAux, h, if_false]
      rw [strAux_append, digitsVal, List.foldl_append]
      have hle : n / 10 ≤ f := by omega
      have hval : digitsVal (strAux f (n / 10) []) = n / 10 := ih _ hle
      simp only [digitsVal] at hval
      simp [hval, digChar_toNat_sub (show n % 10 < 10 by omega)]
      omega

theorem str_injective : Function.Injective str := by
  intro a b hab
  have h2 : strAux a a [] = strAux b b [] := congrArg String.data hab
  have := congrArg digitsVal h2
  rwa [digitsVal_strAux a a le_rfl, digitsVal_strAux b b le_rfl] at this

/-! ## The Machine graph arena (external `machine.Machine` boundary)

Machines are mutable, shared-by-reference Python objects.  We model the heap
explicitly: a `Store` is an arena of `Node`s and a machine is a `Nat`
reference into it, so aliasing (two partitions holding the *same* machine)
and in-place mutation are first-class. -/

theorem indexIn_lt_length {l : List String} {a : String} (h : a ∈ l) :
    indexIn l a < l.length := by
  induction l with
  | nil => cases h
  | cons b rest ih =>
    by_cases hba : b = a
    · simp [indexIn, hba]
    · have : a ∈ rest := by
        cases h with
        | head => exact absurd rfl hba
        | tail _ h' => exact h'
      simp [indexIn, hba, Nat.succ_lt_succ (ih this)]

theorem get_indexIn {l : List String} {a : String} (h : a ∈ l) (hlt : indexIn l a < l.length) :
    l.get ⟨indexIn l a, hlt⟩ = a := by
  induction l with
  | nil => cases h
  | cons b rest ih =>
    by_cases hba : b = a
    · simp [indexIn, hba]
    · have hmem : a ∈ rest := by
        cases h with
        | head => exact absurd rfl hba
        | tail _ h' => exact h'
      have hlt' : indexIn rest a < rest.length := indexIn_lt_length hmem
      simp only [indexIn, hba, if_false]
      simpa using ih hmem hlt'

/-- On the members of a list, `indexIn` is injective. -/
theorem indexIn_inj {l : List String} {a b : String} (ha : a ∈ l) (hb : b ∈ l)
    (h : indexIn l a = indexIn l b) : a = b := by
  have hla := indexIn_lt_length ha
  have hlb := indexIn_lt_length hb
  have := get_indexIn ha hla
  rw [show (⟨indexIn l a, hla⟩ : Fin l.length) = ⟨indexIn l b, hlb⟩ from Fin.ext h] at this
  rw [get_indexIn hb hlb] at this
  exact this.symm

theorem msum_nil (args : List String) : msum args [] = 0 := rfl

theorem msum_cons (args : List String) (b : String) (l : List String) :
    msum args (b :: l) = 2 ^ indexIn args b + msum args l := by
  simp [msum]

theorem mem_walkEdges {args : List String} :
    ∀ {p : List String} {s : Nat} {e : String × String × String},
      (e ∈ walkEdges args p s ↔
        ∃ l1 a l2, p = l1 ++ a :: l2 ∧
          e = (a, str (s + msum args l1),
                str (s + msum args l1 + 2 ^ indexIn args a))) := by
  intro p
  induction p with
  | nil =>
    intro s e
    simp only [walkEdges, List.not_mem_nil, false_iff]
    rintro ⟨l1, a, l2, h, -⟩
    exact (List.cons_ne_nil a l2) (List.append_eq_nil.mp h.symm).2
  | cons b rest ih =>
    intro s e
    constructor
    · intro he
      rcases (List.mem_cons.mp he) with he0 | het
      · exact ⟨[], b, rest, rfl, by simpa [msum_nil] using he0⟩
      · obtain ⟨l1, a, l2, hsplit, he⟩ := ih.mp het
        refine ⟨b :: l1, a, l2, by simp [hsplit], ?_⟩
        rw [he, msum_cons]
        simp [Nat.add_assoc]
    · rintro ⟨l1, a, l2, hsplit, he⟩
      cases l1 with
      | nil =>
        have hb : b = a := by simpa using congrArg (fun l => l.head?) hsplit
        have hr : rest = l2 := by simpa using congrArg (fun l => l.tail) hsplit
        subst hb; subst hr
        simp only [walkEdges, List.mem_cons]
        left
        rw [he]; simp [msum_nil]
      | cons c l1' =>
        have hb : b = c := by simpa using congrArg (fun l => l.head?) hsplit
        have hr : rest = l1' ++ a :: l2 := by simpa using congrArg (fun l => l.tail) hsplit
        subst hb
        simp only [walkEdges, List.mem_cons]
        right
        refine ih.mpr ⟨l1', a, l2, hr, ?_⟩
        rw [he, msum_cons]
        simp [Nat.add_assoc]

theorem transitions_char {args : List String} {e : String × String × String}
    (he : e ∈ (generate_control args).transitions) :
    e = ("VERB", "0", "1") ∨
      ∃ l1 a l2, (l1 ++ a :: l2).Perm args ∧
        e = (a, str (1 + msum args l1),
              str (1 + msum args l1 + 2 ^ indexIn args a)) := by
  simp only [generate_control, List.singleton_append, List.mem_cons,
    List.mem_flatMap] at he
  rcases he with he | ⟨p, hpmem, he⟩
  · exact Or.inl he
  · obtain ⟨l1, a, l2, hsplit, heq⟩ := mem_walkEdges.mp he
    exact Or.inr ⟨l1, a, l2, hsplit ▸ List.mem_permutations.mp hpmem, heq⟩

theorem edge_mem {args l1 l2 : List String} {a : String}
    (h : (l1 ++ a :: l2).Perm args) :
    (a, str (1 + msum args l1), str (1 + msum args l1 + 2 ^ indexIn args a)) ∈
      (generate_control args).transitions := by
  simp only [generate_control, List.singleton_append, List.mem_cons, List.mem_flatMap]
  exact Or.inr ⟨l1 ++ a :: l2, List.mem_permutations.mpr h,
    mem_walkEdges.mpr ⟨l1, a, l2, rfl, rfl⟩⟩

theorem msum_eq_finset_sum {args l1 : List String} (hnd : l1.Nodup)
    (hsub : ∀ b ∈ l1, b ∈ args) :
    msum args l1 = ∑ i in (l1.map (indexIn args)).toFinset, 2 ^ i := by
  have hmapnd : (l1.map (indexIn args)).Nodup :=
    List.Nodup.map_on (fun x hx y hy hxy => indexIn_inj (hsub x hx) (hsub y hy) hxy) hnd
  rw [List.sum_toFinset _ hmapnd, List.map_map]
  rfl

theorem msum_perm {args p q : List String} (h : p.Perm q) : msum args p = msum args q :=
  (h.map _).sum_eq

theorem map_indexIn_self {args : List String} (hnd : args.Nodup) :
    args.map (indexIn args) = List.range args.length := by
  apply List.ext_get (by simp)
  intro i h1 h2
  simp only [List.get_map, List.get_range]
  have hi : i < args.length := by simpa using h1
  have hmem : args.get ⟨i, hi⟩ ∈ args := args.get_mem _ _
  have hlt := indexIn_lt_length hmem
  have hget : args.get ⟨indexIn args (args.get ⟨i, hi⟩), hlt⟩ = args.get ⟨i, hi⟩ :=
    get_indexIn hmem hlt
  have := (List.Nodup.get_inj_iff hnd).mp hget
  exact congrArg Fin.val this

theorem sum_map_range_two_pow (n : Nat) :
    ((List.range n).map (fun i => 2 ^ i)).sum = 2 ^ n - 1 := by
  induction n with
  | zero => rfl
  | succ n ih =>
    rw [List.range_succ]
    simp only [List.map_append, List.map_cons, List.map_nil, List.sum_append,
      List.sum_cons, List.sum_nil, ih]
    have h2 : 2 ^ (n + 1) = 2 ^ n + 2 ^ n := by rw [pow_succ]; ring
    have h1 : 1 ≤ 2 ^ n := Nat.one_le_two_pow
    omega

theorem sum_range_two_pow (n : Nat) : ∑ i in Finset.range n, 2 ^ i = 2 ^ n - 1 := by
  induction n with
  | zero => rfl
  | succ n ih =>
    rw [Finset.sum_range_succ, ih]
    have h2 : 2 ^ (n + 1) = 2 ^ n + 2 ^ n := by rw [pow_succ]; ring
    have h1 : 1 ≤ 2 ^ n := Nat.one_le_two_pow
    omega

theorem msum_self {args : List String} (hnd : args.Nodup) :
    msum args args = 2 ^ args.length - 1 := by
  have hcomp : args.map (fun b => 2 ^ indexIn args b) =
      (args.map (indexIn args)).map (fun i => 2 ^ i) := by
    rw [List.map_map]; rfl
  unfold msum
  rw [hcomp, map_indexIn_self hnd, sum_map_range_two_pow]

theorem reset_generate_control (args : List String) :
    (generate_control args).resetState = some "0" := rfl

theorem isFinal_generate_control {args : List String} {s : String}
    (h : (generate_control args).isFinalName s) : s = str (2 ^ args.length) := by
  obtain ⟨b, hb⟩ := h
  simp only [generate_control] at hb
  simp at hb
  exact hb.1

theorem isFinal_generate_control_top (args : List String) :
    (generate_control args).isFinalName (str (2 ^ args.length)) :=
  ⟨false, by simp [generate_control]⟩

theorem states_generate_control (args : List String) (nm : String) (b1 b2 : Bool) :
    ((nm, b1, b2) ∈ (generate_control args).states ↔
      ∃ i ≤ 2 ^ args.length, nm = str i ∧
        b1 = decide (i = 0) ∧ b2 = decide (i = 2 ^ args.length)) := by
  have hpos : 0 < 2 ^ args.length := Nat.two_pow_pos _
  constructor
  · intro hmem
    simp only [generate_control, List.mem_append, List.mem_map, List.mem_cons,
      List.mem_singleton, List.not_mem_nil, or_false, Prod.mk.injEq,
      List.mem_range'] at hmem
    rcases hmem with (⟨h1, h2, h3⟩ | ⟨i, ⟨k, hk, hik⟩, h1, h2, h3⟩) | ⟨h1, h2, h3⟩
    · refine ⟨0, by omega, ?_, ?_, ?_⟩
      · rw [h1]; rfl
      · rw [h2]; simp
      · rw [h3]
        have : (0 : Nat) ≠ 2 ^ args.length := by omega
        simp [this]
    · refine ⟨i, by omega, h1.symm, ?_, ?_⟩
      · rw [← h2]
        have : i ≠ 0 := by omega
        simp [this]
      · rw [← h3]
        have : i ≠ 2 ^ args.length := by omega
        simp [this]
    · refine ⟨2 ^ args.length, le_rfl, h1, ?_, ?_⟩
      · rw [h2]
        have : 2 ^ args.length ≠ 0 := by omega
        simp [this]
      · rw [h3]; simp
  · rintro ⟨i, hle, rfl, rfl, rfl⟩
    simp only [generate_control, List.mem_append, List.mem_map, List.mem_cons,
      List.mem_singleton, List.not_mem_nil, or_false, Prod.mk.injEq,
      List.mem_range']
    rcases Nat.lt_or_ge i 1 with hi0 | hi1
    · have hieq : i = 0 := by omega
      subst hieq
      left; left
      have hne : (0 : Nat) ≠ 2 ^ args.length := by omega
      refine ⟨rfl, by simp, by simp [hne]⟩
    · rcases Nat.lt_or_ge i (2 ^ args.length) with hilt | hige
      · left; right
        have h0 : i ≠ 0 := by omega
        have htop : i ≠ 2 ^ args.length := by omega
        exact ⟨i, ⟨i - 1, by omega, by omega⟩, rfl, by simp [h0], by simp [htop]⟩
      · have hieq : i = 2 ^ args.length := by omega
        subst hieq
        right
        have hne : 2 ^ args.length ≠ 0 := by omega
        exact ⟨rfl, by simp [hne], by simp⟩

theorem walk_path {ts : List (String × String × String)} {args : List String} :
    ∀ (p : List String) (s : Nat), (∀ e ∈ walkEdges args p s, e ∈ ts) →
      Path ts (str s) p (str (s + msum args p)) := by
  intro p
  induction p with
  | nil =>
    intro s _
    have : s + msum args [] = s := by simp [msum_nil]
    rw [this]
    exact Path.nil (str s)
  | cons b rest ih =>
    intro s hsub
    have he0 : (b, str s, str (s + 2 ^ indexIn args b)) ∈ ts :=
      hsub _ (by simp [walkEdges])
    have htail := ih (s + 2 ^ indexIn args b)
      (fun e he => hsub e (by simp [walkEdges, he]))
    have harith : s + msum args (b :: rest) =
        s + 2 ^ indexIn args b + msum args rest := by
      rw [msum_cons]; omega
    rw [harith]
    exact Path.cons he0 htail

theorem path_to_final_covers {args : List String} (hnd : args.Nodup) :
    ∀ {st : String} {ls : List String} {t : String},
      Path (generate_control args).transitions st ls t →
      ∀ S : Finset Nat, st = str (1 + ∑ i in S, 2 ^ i) →
        (generate_control args).isFinalName t →
        ∀ j (hj : j < args.length), j ∈ S ∨ args.get ⟨j, hj⟩ ∈ ls := by
  intro st ls t hp
  induction hp with
  | nil s =>
    intro S hst hfin j hj
    left
    have hfs := isFinal_generate_control hfin
    rw [hst] at hfs
    have heq : 1 + ∑ i in S, 2 ^ i = 2 ^ args.length := str_injective hfs
    have h1 : (1 : Nat) ≤ 2 ^ args.length := Nat.one_le_two_pow
    have hS : ∑ i in S, 2 ^ i = 2 ^ args.length - 1 := by omega
    have hSr : S = Finset.range args.length := by
      apply Finset.geomSum_injective (le_refl 2)
      show ∑ i in S, 2 ^ i = ∑ i in Finset.range args.length, 2 ^ i
      rw [hS, sum_range_two_pow]
    rw [hSr]
    exact Finset.mem_range.mpr hj
  | cons hmem htail ih =>
    intro S hst hfin j hj
    rcases transitions_char hmem with hverb | ⟨l1, a, l2, hperm, he⟩
    · exfalso
      have hsrc : "0" = str (1 + ∑ i in S, 2 ^ i) := by
        have := congrArg (fun x => x.2.1) hverb
        simp at this
        rw [← this, ← hst]
      have : (0 : Nat) = 1 + ∑ i in S, 2 ^ i := str_injective hsrc
      omega
    · obtain ⟨hlbl, hsrc, htgt⟩ : _ ∧ _ ∧ _ := by
        have h1 := congrArg (fun x => x.1) he
        have h2 := congrArg (fun x => x.2.1) he
        have h3 := congrArg (fun x => x.2.2) he
        simp at h1 h2 h3
        exact ⟨h1, h2, h3⟩
      have hndp : (l1 ++ a :: l2).Nodup := (hperm.nodup_iff).mpr hnd
      have hl1nd : l1.Nodup := (List.nodup_append.mp hndp).1
      have hanl1 : a ∉ l1 := by
        have hdis := (List.nodup_append.mp hndp).2.2
        intro hal1
        exact hdis hal1 (List.mem_cons_self a l2)
      have hsubargs : ∀ b ∈ l1, b ∈ args :=
        fun b hb => hperm.mem_iff.mp (List.mem_append.mpr (Or.inl hb))
      have haargs : a ∈ args :=
        hperm.mem_iff.mp (List.mem_append.mpr (Or.inr (List.mem_cons_self a l2)))
      have hmsum := msum_eq_finset_sum hl1nd hsubargs
      -- the source state forces S to be the mask of l1
      have hsrceq : str (1 + ∑ i in S, 2 ^ i) =
          str (1 + ∑ i in (l1.map (indexIn args)).toFinset, 2 ^ i) := by
        rw [← hst, hsrc, hmsum]
      have hSeq : S = (l1.map (indexIn args)).toFinset := by
        have hnum := str_injective hsrceq
        apply Finset.geomSum_injective (le_refl 2)
        show ∑ i in S, 2 ^ i = ∑ i in (l1.map (indexIn args)).toFinset, 2 ^ i
        omega
      have hia_nmem : indexIn args a ∉ S := by
        rw [hSeq]
        intro hmem2
        rcases List.mem_toFinset.mp hmem2 with hmem3
        obtain ⟨b, hb, hbeq⟩ := List.mem_map.mp hmem3
        exact hanl1 (indexIn_inj (hsubargs b hb) haargs hbeq ▸ hb)
      have hnum2 : 1 + msum args l1 + 2 ^ indexIn args a =
          1 + ∑ i in insert (indexIn args a) S, 2 ^ i := by
        rw [Finset.sum_insert hia_nmem, hSeq, ← hmsum]
        omega
      have htgt2 := htgt.trans (congrArg str hnum2)
      have hcov := ih (insert (indexIn args a) S) htgt2 hfin j hj
      rcases hcov with hin | hmem4
      · rcases Finset.mem_insert.mp hin with hji | hjS
        · right
          have hget : args.get ⟨j, hj⟩ = a := by
            have hlt := indexIn_lt_length haargs
            have := get_indexIn haargs hlt
            have hfe : (⟨j, hj⟩ : Fin args.length) = ⟨indexIn args a, hlt⟩ :=
              Fin.ext hji
            rw [hfe]
            exact this
          rw [hget, ← hlbl]
          exact List.mem_cons_self _ _
        · exact Or.inl hjS
      · exact Or.inr (List.mem_cons_of_mem _ hmem4)

theorem not_accepts_missing {args : List String} (hnd : args.Nodup)
    (hv : "VERB" ∉ args) {a : String} (ha : a ∈ args) {ls : List String}
    (hnl : a ∉ ls) : ¬ (generate_control args).accepts ls := by
  rintro ⟨s0, t, hreset, hpath, hfin⟩
  have hs0 : s0 = "0" := by
    rw [reset_generate_control] at hreset
    exact (Option.some_inj.mp hreset).symm
  subst hs0
  cases hpath with
  | nil =>
    have := isFinal_generate_control hfin
    have h0 : str 0 = str (2 ^ args.length) := this
    have := str_injective h0
    have := Nat.two_pow_pos args.length
    omega
  | cons hmem htail =>
    rcases transitions_char hmem with hverb | ⟨l1, b, l2, hperm, he⟩
    · obtain ⟨hlbl, -, htgt⟩ : _ ∧ _ ∧ _ := by
        have h1 := congrArg (fun x => x.1) hverb
        have h2 := congrArg (fun x => x.2.1) hverb
        have h3 := congrArg (fun x => x.2.2) hverb
        simp at h1 h2 h3
        exact ⟨h1, h2, h3⟩
      rw [htgt] at htail
      have h1S : ("1" : String) = str (1 + ∑ i in (∅ : Finset Nat), 2 ^ i) := by
        simp
        rfl
      have hcov := path_to_final_covers hnd (h1S ▸ htail) ∅ rfl hfin
      have hjlt := indexIn_lt_length ha
      rcases hcov _ hjlt with hemp | hmem2
      · exact absurd hemp (Finset.not_mem_empty _)
      · rw [get_indexIn ha hjlt] at hmem2
        exact hnl (List.mem_cons_of_mem _ hmem2)
    · exfalso
      have hsrc : ("0" : String) = str (1 + msum args l1) := by
        have h2 := congrArg (fun x => x.2.1) he
        simp at h2
        exact h2
      have h00 : str 0 = str (1 + msum args l1) := hsrc
      have := str_injective h00
      omega

theorem accepts_perm {args : List String} (hnd : args.Nodup) {p : List String}
    (hp : p.Perm args) : (generate_control args).accepts ("VERB" :: p) := by
  refine ⟨"0", str (2 ^ args.length), reset_generate_control args, ?_,
    isFinal_generate_control_top args⟩
  have hverb : ("VERB", "0", "1") ∈ (generate_control args).transitions := by
    simp [generate_control]
  have hsub : ∀ e ∈ walkEdges args p 1, e ∈ (generate_control args).transitions := by
    intro e he
    simp only [generate_control, List.singleton_append, List.mem_cons, List.mem_flatMap]
    exact Or.inr ⟨p, List.mem_permutations.mpr hp, he⟩
  have hwalk := walk_path p 1 hsub
  have hmsum : msum args p = 2 ^ args.length - 1 := (msum_perm hp).trans (msum_self hnd)
  have h1 : (1 : Nat) ≤ 2 ^ args.length := Nat.one_le_two_pow
  have hend : 1 + msum args p = 2 ^ args.length := by omega
  rw [hend] at hwalk
  exact Path.cons hverb hwalk

/-- C1: For a verb whose discovered non-VERB argument key list has `N` distinct
entries, the automaton built by `VerbConstruction.generate_control` has states
`"0"` (initial), `"1"` through `str (2^N - 1)`, and `str (2^N)` (final); an
edge `"0" → "1"` guarded by the VERB matcher; across all permutations, every
hypercube edge (for every split `l1 ++ a :: l2` of the arguments there is an
edge on `a` from `str (1 + mask l1)` to `str (1 + mask l1 + 2^index a)`); the
verb followed by all `N` arguments in any order is accepted; no sequence
omitting any argument reaches a final state; and in particular for `N = 2`
(keys NOM and ACC) the states are `"0"`–`"4"` with `"4"` final, and both
orderings VERB-NOM-ACC and VERB-ACC-NOM are accepted (terminating at the
final state `"4"`). -/
theorem C1_generate_control_hypercube (args : List String)
    (hnd : args.Nodup) (hv : "VERB" ∉ args) :
    (∀ nm b1 b2, ((nm, b1, b2) ∈ (generate_control args).states ↔
        ∃ i ≤ 2 ^ args.length, nm = str i ∧ b1 = decide (i = 0) ∧
          b2 = decide (i = 2 ^ args.length)))
    ∧ ("VERB", "0", "1") ∈ (generate_control args).transitions
    ∧ (∀ l1 a l2, (l1 ++ a :: l2).Perm args →
        (a, str (1 + msum args l1),
          str (1 + msum args l1 + 2 ^ indexIn args a)) ∈
            (generate_control args).transitions)
    ∧ (∀ p, p.Perm args → (generate_control args).accepts ("VERB" :: p))
    ∧ (∀ a ∈ args, ∀ ls, a ∉ ls → ¬ (generate_control args).accepts ls)
    ∧ ((generate_control ["NOM", "ACC"]).states =
        [("0", true, false), ("1", false, false), ("2", false, false),
          ("3", false, false), ("4", false, true)]
        ∧ (generate_control ["NOM", "ACC"]).accepts ["VERB", "NOM", "ACC"]
        ∧ (generate_control ["NOM", "ACC"]).accepts ["VERB", "ACC", "NOM"]) := by
  refine ⟨states_generate_control args, by simp [generate_control],
    fun l1 a l2 h => edge_mem h,
    fun p hp => accepts_perm hnd hp,
    fun a ha ls hnl => not_accepts_missing hnd hv ha hnl,
    ?_, ?_, ?_⟩
  · rfl
  · exact accepts_perm (by decide) (List.Perm.refl _)
  · exact accepts_perm (by decide) (List.Perm.swap "NOM" "ACC" [])

/-- Witness for C1 at the concrete two-argument instance `[NOM, ACC]`. -/
theorem C1_generate_control_hypercube_witness :
    (["NOM", "ACC"] : List String).Nodup ∧
      ("VERB" ∉ (["NOM", "ACC"] : List String)) ∧
      ("VERB", "0", "1") ∈ (generate_control ["NOM", "ACC"]).transitions ∧
      (generate_control ["NOM", "ACC"]).accepts ["VERB", "ACC", "NOM"] :=
  ⟨by decide, by decide,
    (C1_generate_control_hypercube ["NOM", "ACC"] (by decide) (by decide)).2.1,
    (C1_generate_control_hypercube ["NOM", "ACC"] (by decide) (by decide)).2.2.2.2.2.2.2⟩

/-! ## lexicon.py: the `Lexicon` knowledge store -/

/-- C2 (code bug): with a static entry `"A"` holding a reference to `"B"` in
partition 1 and an instance of `"B"` already active, `activate()` does *not*
return one new expanded instance of `"A"`: the concept is found ready and a
fresh instance is registered active, but the `expand` call then raises
`ValueError` at lexicon.py:84 (the loop unpacks the static definition's
partition `[B]` as an `(index, partition)` pair), so `activate` propagates
the exception instead of returning. -/
theorem C2_activate_value_error :
    activate ⟨[("A", 1)], [("B", [(0, false)])]⟩
        ⟨[⟨"B", Control.noneC, [[]]⟩, ⟨"A", Control.conceptC, [[], [0]]⟩]⟩ =
      .error LexErr.valueErr := rfl

/-- C4: `expand` on a machine never registered via `add_active` under its
printname raises ("only active machines can be expanded"), whether the
printname is absent from the active pool or present without this instance;
and `expand` on an active machine whose printname has no static entry logs a
warning, raises nothing, returns the lexicon unchanged, and in particular
leaves that machine's expanded flag at `false`. -/
theorem C4_expand_preconditions (lex : Lexicon) (σ : Store) (m : Nat) :
    (lookupA lex.active (σ.get m).printname = none →
      expand lex σ m = .error LexErr.notActive)
    ∧ (∀ instances, lookupA lex.active (σ.get m).printname = some instances →
        lookupA instances m = none →
        expand lex σ m = .error LexErr.notActive)
    ∧ (∀ instances, lookupA lex.active (σ.get m).printname = some instances →
        lookupA instances m = some false →
        lookupA lex.static (σ.get m).printname = none →
        expand lex σ m = .ok lex ∧
          ∃ instances', lookupA lex.active (σ.get m).printname = some instances' ∧
            lookupA instances' m = some false) := by
  refine ⟨?_, ?_, ?_⟩
  · intro h
    simp [expand, h]
  · intro instances h1 h2
    simp [expand, h1, h2]
  · intro instances h1 h2 h3
    refine ⟨by simp [expand, h1, h2, h3], instances, h1, h2⟩

/-- Witness for C4: a machine in an empty lexicon cannot be expanded; an
active machine with no static entry is returned untouched with its flag
still `false`. -/
theorem C4_expand_preconditions_witness :
    expand ⟨[], []⟩ ⟨[⟨"a", Control.noneC, [[]]⟩]⟩ 0 = .error LexErr.notActive ∧
    expand ⟨[], [("a", [(0, false)])]⟩ ⟨[⟨"a", Control.noneC, [[]]⟩]⟩ 0 =
      .ok ⟨[], [("a", [(0, false)])]⟩ :=
  ⟨(C4_expand_preconditions ⟨[], []⟩ ⟨[⟨"a", Control.noneC, [[]]⟩]⟩ 0).1 rfl,
    ((C4_expand_preconditions ⟨[], [("a", [(0, false)])]⟩
        ⟨[⟨"a", Control.noneC, [[]]⟩]⟩ 0).2.2 [(0, false)] rfl rfl rfl).1⟩

/-! ## construction.py: VerbConstruction and TheConstruction -/

theorem Store.get_set_self {σ : Store} {r : Nat} {n : Node}
    (h : r < σ.nodes.length) : (σ.set r n).get r = n := by
  simp [Store.get, Store.set, List.getElem?_set_self h]

theorem Store.get_set_ne {σ : Store} {r r' : Nat} {n : Node} (h : r ≠ r') :
    (σ.set r n).get r' = σ.get r' := by
  simp [Store.get, Store.set, List.getElem?_set_ne h]

/-- A dead automaton stays dead: folding reads over `none` yields `none`. -/
theorem foldl_read_none {τ : Type} (mtest : τ → Store → Nat → Bool) (f : FSA τ)
    (σ : Store) (rest : List Nat) :
    rest.foldl (f.readMachine mtest σ) none = none := by
  induction rest with
  | nil => rfl
  | cons m rest ih => simpa [FSA.readMachine] using ih

/-- C8: `TheConstruction.run` on [the; kockat with POS `NOUN<CAS<ACC>>`]
accepts and returns the one-element sequence holding the noun machine, whose
POS tag afterwards equals `NOUN<CAS<ACC>><DET>`; and for every sequence
whose first machine's printname is not `"the"`, `run` returns no value. -/
theorem C8_theConstruction_run :
    (theConstruction_run
        ⟨[⟨"the", Control.posC "DET", [[]]⟩,
          ⟨"kockat", Control.posC "NOUN<CAS<ACC>>", [[]]⟩]⟩ [0, 1] =
      some (.ok ([1],
        ⟨[⟨"the", Control.posC "DET", [[]]⟩,
          ⟨"kockat", Control.posC "NOUN<CAS<ACC>><DET>", [[]]⟩]⟩)))
    ∧ ∀ (σ : Store) (r : Nat) (rest : List Nat), (σ.get r).printname ≠ "the" →
        theConstruction_run σ (r :: rest) = none := by
  constructor
  · rfl
  · intro σ r rest h
    have hbeq : ((σ.get r).printname == "the") = false := by
      simp [h]
    simp [theConstruction_run, construction_check, theConstructionControl,
      FSA.add_state, FSA.add_transition, FSA.resetState, FSA.readMachine,
      FSA.inFinal, Matcher.matchesM, hbeq, List.find?, foldl_read_none]

/-- Witness for C8's universal part: a sequence led by the noun machine
itself (printname `"kockat"`, not `"the"`) is rejected. -/
theorem C8_theConstruction_run_witness :
    theConstruction_run
      ⟨[⟨"the", Control.posC "DET", [[]]⟩,
        ⟨"kockat", Control.posC "NOUN<CAS<ACC>>", [[]]⟩]⟩ [1, 0] = none :=
  C8_theConstruction_run.2
    ⟨[⟨"the", Control.posC "DET", [[]]⟩,
      ⟨"kockat", Control.posC "NOUN<CAS<ACC>>", [[]]⟩]⟩ 1 [0] (by decide)

/-- C10: for every sequence of at least two machines (with the second one a
valid reference carrying a POS control), `TheConstruction.act` returns the
one-element list holding the *same* reference as `seq[1]` (aliased, not
copied), and its only state change is appending `"<DET>"` to that machine's
POS string: the machine's printname and partitions are untouched, every
other machine — in particular `seq[0]` when it is a different reference —
is untouched. -/
theorem C10_theConstruction_act_frame (σ : Store) (a b : Nat) (rest : List Nat)
    (pos : String) (hctrl : (σ.get b).control = .posC pos)
    (hval : b < σ.nodes.length) :
    theConstruction_act σ (a :: b :: rest) =
      .ok ([b], σ.set b { σ.get b with control := .posC (pos ++ "<DET>") })
    ∧ ((σ.set b { σ.get b with control := .posC (pos ++ "<DET>") }).get b).printname
        = (σ.get b).printname
    ∧ ((σ.set b { σ.get b with control := .posC (pos ++ "<DET>") }).get b).partitions
        = (σ.get b).partitions
    ∧ ((σ.set b { σ.get b with control := .posC (pos ++ "<DET>") }).get b).control
        = .posC (pos ++ "<DET>")
    ∧ (∀ r, r ≠ b →
        (σ.set b { σ.get b with control := .posC (pos ++ "<DET>") }).get r = σ.get r)
    ∧ (a ≠ b →
        (σ.set b { σ.get b with control := .posC (pos ++ "<DET>") }).get a = σ.get a) := by
  refine ⟨?_, ?_, ?_, ?_, ?_, ?_⟩
  · simp [theConstruction_act, hctrl]
  · rw [Store.get_set_self hval]
  · rw [Store.get_set_self hval]
  · rw [Store.get_set_self hval]
  · intro r hr
    exact Store.get_set_ne (fun hbr => hr hbr.symm)
  · intro hab
    exact Store.get_set_ne (fun hba => hab hba.symm)

/-- Witness for C10 on the [the; kockat] sequence. -/
theorem C10_theConstruction_act_frame_witness :
    theConstruction_act
        ⟨[⟨"the", Control.posC "DET", [[]]⟩,
          ⟨"kockat", Control.posC "NOUN<CAS<ACC>>", [[]]⟩]⟩ [0, 1] =
      .ok ([1],
        (⟨[⟨"the", Control.posC "DET", [[]]⟩,
           ⟨"kockat", Control.posC "NOUN<CAS<ACC>>", [[]]⟩]⟩ : Store).set 1
          { (⟨[⟨"the", Control.posC "DET", [[]]⟩,
               ⟨"kockat", Control.posC "NOUN<CAS<ACC>>", [[]]⟩]⟩ : Store).get 1 with
            control := .posC ("NOUN<CAS<ACC>>" ++ "<DET>") }) :=
  (C10_theConstruction_act_frame
    ⟨[⟨"the", Control.posC "DET", [[]]⟩,
      ⟨"kockat", Control.posC "NOUN<CAS<ACC>>", [[]]⟩]⟩ 0 1 []
    "NOUN<CAS<ACC>>" rfl (by decide)).1

/-- C5: whenever `VerbConstruction.act` completes successfully, the returned
instance has `activated = true`, and every subsequent `check` — on any
store, any current control state and any input sequence — returns false. -/
theorem C5_verb_single_use (fuel : Nat) (vc : VerbConstruction) (σ : Store)
    (seq : List Nat) (vc' : VerbConstruction) (σ' : Store) (res : List Nat)
    (h : VerbConstruction.act fuel vc σ seq = .ok (vc', σ', res)) :
    vc'.activated = true ∧
      ∀ (σ2 : Store) (cur : Option String) (seq2 : List Nat),
        vc'.check σ2 cur seq2 = false := by
  unfold VerbConstruction.act at h
  split at h
  · exact absurd h (by simp)
  · split at h
    · exact absurd h (by simp)
    · simp only [Except.ok.injEq, Prod.mk.injEq] at h
      obtain ⟨hvc, -, -⟩ := h
      have hact : vc'.activated = true := by rw [← hvc]
      refine ⟨hact, fun σ2 cur seq2 => ?_⟩
      simp [VerbConstruction.check, hact]

/-- Witness for C5: a zero-argument `VerbConstruction` built by `__init__`
from the verb machine "eat"; one `act` on the verb token succeeds (returning
the instance with `activated = true` and the deep copy allocated), and the
returned instance refuses every later `check`. -/
theorem C5_verb_single_use_witness :
    VerbConstruction.init 4 "eat" 0 []
        ⟨[⟨"eat", Control.posC "VERB<PAST>", [[]]⟩]⟩ =
      .ok (⟨"eat", 0, [], [], [("VERB", Matcher.posM "^VERB.*")],
        [(Matcher.posM "^VERB.*", none)], generate_control [], false⟩,
        ⟨[⟨"eat", Control.posC "VERB<PAST>", [[]]⟩]⟩) ∧
    VerbConstruction.act 4
        ⟨"eat", 0, [], [], [("VERB", Matcher.posM "^VERB.*")],
          [(Matcher.posM "^VERB.*", none)], generate_control [], false⟩
        ⟨[⟨"eat", Control.posC "VERB<PAST>", [[]]⟩]⟩ [0] =
      .ok (⟨"eat", 1, [], [], [("VERB", Matcher.posM "^VERB.*")],
        [(Matcher.posM "^VERB.*", none)], generate_control [], true⟩,
        ⟨[⟨"eat", Control.posC "VERB<PAST>", [[]]⟩,
          ⟨"eat", Control.posC "VERB<PAST>", [[]]⟩]⟩, [0]) ∧
    (⟨"eat", 1, [], [], [("VERB", Matcher.posM "^VERB.*")],
        [(Matcher.posM "^VERB.*", none)], generate_control [], true⟩ :
      VerbConstruction).activated = true ∧
    ∀ σ2 cur seq2,
      (⟨"eat", 1, [], [], [("VERB", Matcher.posM "^VERB.*")],
          [(Matcher.posM "^VERB.*", none)], generate_control [], true⟩ :
        VerbConstruction).check σ2 cur seq2 = false :=
  ⟨rfl, rfl,
    (C5_verb_single_use 4
      ⟨"eat", 0, [], [], [("VERB", Matcher.posM "^VERB.*")],
        [(Matcher.posM "^VERB.*", none)], generate_control [], false⟩
      ⟨[⟨"eat", Control.posC "VERB<PAST>", [[]]⟩]⟩ [0] _ _ _ rfl).1,
    (C5_verb_single_use 4
      ⟨"eat", 0, [], [], [("VERB", Matcher.posM "^VERB.*")],
        [(Matcher.posM "^VERB.*", none)], generate_control [], false⟩
      ⟨[⟨"eat", Control.posC "VERB<PAST>", [[]]⟩]⟩ [0] _ _ _ rfl).2⟩

/-- C6 counterexample: the claim "every recorded child is removed from the
partition it was found in" is false.  On the verb machine `give` (reference
2) whose partition 1 holds the deep-case children `NOM` (reference 0) and
`ACC` (reference 1), `discover_arguments` records *both* under their labels
with location `(2, 1)`, yet only `ACC` — the last matched child — is removed:
reference 0 is still in partition 1 afterwards. -/
theorem C6_discover_arguments_counterexample :
    discover_arguments 5
        ⟨[⟨"NOM", Control.conceptC, [[]]⟩,
          ⟨"ACC", Control.conceptC, [[], [3]]⟩,
          ⟨"give", Control.conceptC, [[], [0, 1]]⟩,
          ⟨"DAT", Control.conceptC, [[]]⟩]⟩ 2 [] =
      some (⟨[⟨"NOM", Control.conceptC, [[]]⟩,
          ⟨"ACC", Control.conceptC, [[], []]⟩,
          ⟨"give", Control.conceptC, [[], [0]]⟩,
          ⟨"DAT", Control.conceptC, [[]]⟩]⟩,
        [("NOM", [(2, 1)]), ("ACC", [(2, 1)]), ("DAT", [(1, 1)])]) ∧
    lookupA [("NOM", [(2, 1)]), ("ACC", [(2, 1)]), ("DAT", [(1, 1)])] "NOM" =
      some [(2, 1)] ∧
    0 ∈ (Store.get ⟨[⟨"NOM", Control.conceptC, [[]]⟩,
          ⟨"ACC", Control.conceptC, [[], []]⟩,
          ⟨"give", Control.conceptC, [[], [0]]⟩,
          ⟨"DAT", Control.conceptC, [[]]⟩]⟩ 2).partitions.getD 1 [] :=
  ⟨rfl, rfl, by decide⟩

/-- C6 as amended: `discover_arguments` records each child of a partition at
index ≥ 1 whose printname is a deep case or starts with `"@"`, keyed by that
label, with its (containing machine, partition index) location; recursion
descends into every nested child's partitions of index ≥ 1 whether or not a
match was found at that level; but in each partition only the *last* matched
child is removed, children matched earlier in the same partition staying in
place.  Demonstrated on `give` (partition 1 = [NOM, ACC], with a nested DAT
inside ACC's partition 1): all three are recorded — DAT through the
recursive descent — yet only ACC is removed from `give`'s partition 1 (NOM,
matched first, stays) and DAT, being the last (and only) match of ACC's
partition 1, is removed there. -/
theorem C6_discover_arguments_last_removed :
    discover_arguments 5
        ⟨[⟨"NOM", Control.conceptC, [[]]⟩,
          ⟨"ACC", Control.conceptC, [[], [3]]⟩,
          ⟨"give", Control.conceptC, [[], [0, 1]]⟩,
          ⟨"DAT", Control.conceptC, [[]]⟩]⟩ 2 [] =
      some (⟨[⟨"NOM", Control.conceptC, [[]]⟩,
          ⟨"ACC", Control.conceptC, [[], []]⟩,
          ⟨"give", Control.conceptC, [[], [0]]⟩,
          ⟨"DAT", Control.conceptC, [[]]⟩]⟩,
        [("NOM", [(2, 1)]), ("ACC", [(2, 1)]), ("DAT", [(1, 1)])]) ∧
    (Store.get ⟨[⟨"NOM", Control.conceptC, [[]]⟩,
          ⟨"ACC", Control.conceptC, [[], []]⟩,
          ⟨"give", Control.conceptC, [[], [0]]⟩,
          ⟨"DAT", Control.conceptC, [[]]⟩]⟩ 2).partitions.getD 1 [] = [0] ∧
    (Store.get ⟨[⟨"NOM", Control.conceptC, [[]]⟩,
          ⟨"ACC", Control.conceptC, [[], []]⟩,
          ⟨"give", Control.conceptC, [[], [0]]⟩,
          ⟨"DAT", Control.conceptC, [[]]⟩]⟩ 1).partitions.getD 1 [] = [] :=
  ⟨rfl, rfl, rfl⟩

/-! ## definition_parser.py: the definition language -/

/-- C3 (code bug): in the `E -> U ( BE )` handler
(definition_parser.py:317–331) the machine appended into the inner machine's
partition 0 is `create_machine(expr[1], 1)` — named after the literal `"("`
token — not after the Unary token.  Parsing the expression `u(x REL)`
appends into `REL`'s partition 0 a machine named `"("`, and no machine named
`"u"` exists anywhere in the result.  The error half of the handler is also
evaluated: an inner BE yielding no machine (`u('REL)`, a dangling relation)
raises "semantics of U(BE) rule has errors". -/
theorem C3_u_be_wrapper_named_paren :
    parse_expr 10
      [PTree.leaf "u", PTree.leaf "(",
       PTree.node [PTree.node [PTree.node [PTree.leaf "x"]], PTree.leaf "REL"],
       PTree.leaf ")"] 0 0 ⟨[⟨"w", Control.conceptC, [[]]⟩]⟩ =
      .ok ([1], ⟨[⟨"w", Control.conceptC, [[]]⟩,
        ⟨"REL", Control.conceptC, [[2, 3], [0]]⟩,
        ⟨"x", Control.conceptC, [[]]⟩,
        ⟨"(", Control.conceptC, [[]]⟩]⟩) ∧
    (Store.get ⟨[⟨"w", Control.conceptC, [[]]⟩,
        ⟨"REL", Control.conceptC, [[2, 3], [0]]⟩,
        ⟨"x", Control.conceptC, [[]]⟩,
        ⟨"(", Control.conceptC, [[]]⟩]⟩ 3).printname = "(" ∧
    (⟨[⟨"w", Control.conceptC, [[]]⟩,
        ⟨"REL", Control.conceptC, [[2, 3], [0]]⟩,
        ⟨"x", Control.conceptC, [[]]⟩,
        ⟨"(", Control.conceptC, [[]]⟩]⟩ : Store).nodes.all
      (fun n => n.printname != "u") = true ∧
    parse_expr 10
      [PTree.leaf "u", PTree.leaf "(",
       PTree.node [PTree.leaf "'", PTree.leaf "REL"],
       PTree.leaf ")"] 0 0 ⟨[⟨"w", Control.conceptC, [[]]⟩]⟩ =
      .error (.parserExc "semantics of U(BE) rule has errors") :=
  ⟨rfl, rfl, rfl, rfl⟩

/-- C7 counterexample: the claim "for every remaining line on which parsing
fails, read reports it and continues with the next line without raising" is
false.  The line `4 v N e l p : u('REL)` is accepted by the grammar but its
tree-to-graph conversion raises `ParserException` ("semantics of U(BE) rule
has errors"), which `read`'s `except pyparsing.ParseException` clause does
not catch: `read` propagates the exception and returns no mapping at all. -/
theorem C7_read_parser_exception_escapes :
    read pimC7 ["1 w N e l p : u1", "4 v N e l p : u('REL)", "3 w N e l p : u2"]
        ⟨[]⟩ [] [] =
      .error (.parserExc "semantics of U(BE) rule has errors") := rfl

/-- C7 as amended: `read` skips blank lines and lines starting with `%`; a
line the grammar rejects (`pyparsing.ParseException`) is reported — offending
line text with the failure message — and skipped without raising; the
returned mapping holds, keyed by printname, exactly the head machines of the
successfully parsed lines, a later line's machine overwriting an earlier one
of the same printname; but a grammatically valid line whose tree-to-graph
conversion raises (`ParserException`) propagates out of `read` uncaught (see
the counterexample).  Demonstrated on a five-line input: one well-formed
line with head `w`, a blank line, a `%`-comment, an unbalanced-bracket line,
and a second well-formed line with the same head `w`: the mapping holds
exactly the second `w` machine, and exactly the malformed line is
reported. -/
theorem C7_read_reports_and_overwrites :
    read pimC7
        ["1 w N e l p : u1", "   ", "% note", "2 x N e l p : [",
         "3 w N e l p : u2"] ⟨[]⟩ [] [] =
      .ok ([("w", 2)],
        ⟨[⟨"w", Control.conceptC, [[1]]⟩, ⟨"u1", Control.conceptC, [[]]⟩,
          ⟨"w", Control.conceptC, [[3]]⟩, ⟨"u2", Control.conceptC, [[]]⟩]⟩,
        [("2 x N e l p : [", "Expected end of text")]) := rfl

/-- C9 counterexample: unify is *not* idempotent.  On `σC9` the first pass
leaves one shared `X` node whose partition 0 holds the two children
`[c, d]`; the second pass rebuilds it with its children appended once per
occurrence of the shared node, yielding `[c, d, c, d]` — the graph changed
again. -/
theorem C9_unify_not_idempotent :
    ∃ σ1 σ2, unify 32 σC9 6 = some σ1 ∧ unify 32 σ1 6 = some σ2 ∧
      ((σ1.get (childAt σ1 (childAt σ1 6 0 0) 0 0)).partitions.getD 0 []).map
        (fun c => (σ1.get c).printname) = ["c", "d"] ∧
      ((σ2.get (childAt σ2 (childAt σ2 6 0 0) 0 0)).partitions.getD 0 []).map
        (fun c => (σ2.get c).printname) = ["c", "d", "c", "d"] := by
  refine ⟨(unify 32 σC9 6).getD ⟨[]⟩, (unify 32 ((unify 32 σC9 6).getD ⟨[]⟩) 6).getD ⟨[]⟩,
    rfl, rfl, rfl, rfl⟩

/-- C9 as amended: one `unify` pass on a graph in which a non-"other"
concept `X` appears as a descendant twice with disjoint children does
consolidate: afterwards both former occurrence sites hold the *same*
reference, one shared `X` node whose partition 0 is the union `[c, d]` of
the occurrences' children.  But `unify` is not idempotent: a second pass
re-appends the shared node's children once per occurrence, doubling them to
`[c, d, c, d]` (every other node of this graph is singleton and survives as
a fresh copy). -/
theorem C9_unify_consolidates_once :
    ∃ σ1 σ2, unify 32 σC9 6 = some σ1 ∧ unify 32 σ1 6 = some σ2 ∧
      -- the two occurrence sites of X now share one node:
      childAt σ1 6 0 0 ≠ childAt σ1 6 0 1 ∧
      childAt σ1 (childAt σ1 6 0 0) 0 0 = childAt σ1 (childAt σ1 6 0 1) 0 0 ∧
      (σ1.get (childAt σ1 (childAt σ1 6 0 0) 0 0)).printname = "X" ∧
      -- its children are the union of the two original occurrences':
      ((σ1.get (childAt σ1 (childAt σ1 6 0 0) 0 0)).partitions.getD 0 []).map
        (fun c => (σ1.get c).printname) = ["c", "d"] ∧
      -- the second pass duplicates them (non-idempotence):
      ((σ2.get (childAt σ2 (childAt σ2 6 0 0) 0 0)).partitions.getD 0 []).map
        (fun c => (σ2.get c).printname) = ["c", "d", "c", "d"] := by
  refine ⟨(unify 32 σC9 6).getD ⟨[]⟩, (unify 32 ((unify 32 σC9 6).getD ⟨[]⟩) 6).getD ⟨[]⟩,
    rfl, rfl, by decide, rfl, rfl, rfl, rfl⟩

end PM
